import Mathlib

/-!
Shallow embedding of the i18next-cli extractor and linter core, developed to
check the repository's specification against the source.  JavaScript strings
are modelled as Lean `String`s (lists of characters), stateful functions are
modelled by explicit event traces, and behaviour of external collaborators
(the SWC parser, the file system, plugin hooks) is supplied through explicit
environment records, so every definition stays executable.
-/

namespace I18nCli

/-- Strips a literal leading character sequence from a character list,
returning the remainder on success.  Basic building block for the embeddings
of the JavaScript operations String.prototype.startsWith and
String.prototype.indexOf used by the source. -/
def stripPre : List Char → List Char → Option (List Char)
  | [], l => some l
  | _ :: _, [] => none
  | p :: ps, c :: cs => if p = c then stripPre ps cs else none

/-- Embedding of JavaScript String.prototype.startsWith. -/
def strStartsWith (s pre : String) : Bool :=
  (stripPre pre.data s.data).isSome

theorem string_data_append (a b : String) : (a ++ b).data = a.data ++ b.data := by
  cases a
  cases b
  rfl

theorem stripPre_self_append (p l : List Char) : stripPre p (p ++ l) = some l := by
  induction p with
  | nil => rfl
  | cons c cs ih => simp [stripPre, ih]

theorem strStartsWith_append (pre m : String) : strStartsWith (pre ++ m) pre = true := by
  simp [strStartsWith, string_data_append, stripPre_self_append]

theorem string_ext {a b : String} (h : a.data = b.data) : a = b := by
  cases a
  cases b
  cases h
  rfl

/-! ## Linter.wrapError (src/unnamed/part_000, lines 287-298) -/

/-- A JavaScript Error object, as far as Linter.wrapError inspects it: a
message string and an optional stack string. -/
structure ErrObj where
  message : String
  stack : Option String
deriving DecidableEq, Repr

/-- A JavaScript value passed to Linter.wrapError: either an Error instance,
or any other value represented by its String() coercion. -/
inductive JsValue where
  | errVal (e : ErrObj)
  | nonError (coerced : String)
deriving DecidableEq, Repr

/-- The message head prepended by Linter.wrapError (source:
`const prefix = 'Linter failed to run: '`). -/
def linterWrapMsg : String := "Linter failed to run: "

/-- Embeds Linter.wrapError: an Error whose message already carries the
`linterWrapMsg` head is returned unchanged; any other Error is re-created with
the head prepended (keeping the original stack); a non-Error value is coerced
to a string and wrapped in a fresh Error. -/
def wrapError : JsValue → ErrObj
  | .errVal e =>
      if strStartsWith e.message linterWrapMsg then e
      else { message := linterWrapMsg ++ e.message, stack := e.stack }
  | .nonError s => { message := linterWrapMsg ++ s, stack := none }

/-- C10: Linter.wrapError is idempotent: for every input the returned Error's
message starts with 'Linter failed to run: ', and applying wrapError to an
already-wrapped Error returns that same Error unchanged, never doubling the
head. -/
theorem wrapError_idempotent (v : JsValue) :
    strStartsWith (wrapError v).message linterWrapMsg = true ∧
    wrapError (.errVal (wrapError v)) = wrapError v := by
  cases v with
  | errVal e =>
      by_cases h : strStartsWith e.message linterWrapMsg = true
      · constructor
        · simp [wrapError, h]
        · simp [wrapError, h]
      · have hb : strStartsWith e.message linterWrapMsg = false := by
          simpa using h
        constructor
        · simp [wrapError, hb, strStartsWith_append]
        · simp [wrapError, hb, strStartsWith_append]
  | nonError s =>
      constructor
      · simp [wrapError, strStartsWith_append]
      · simp [wrapError, strStartsWith_append]

/-! ## Callee-name pattern matching (src/unnamed/part_000, handleCallExpression, lines 151-209) -/

/-- An SWC identifier node as inspected by handleCallExpression: the source
reads both the `.value` property (SWC shape) and the `.name` property (ESTree
shape), each of which may be absent (modelled as `none`).  JavaScript
truthiness makes an empty string behave like an absent property. -/
structure IdentNode where
  value : Option String
  nm : Option String
deriving DecidableEq, Repr

/-- The callee of a CallExpression, in the shapes handleCallExpression
distinguishes: a plain identifier, a member expression whose property is an
identifier, a member expression with any other property, or anything else. -/
inductive CalleeNode where
  | ident (i : IdentNode)
  | memberIdentProp (prop : IdentNode)
  | memberOtherProp
  | otherCallee
deriving DecidableEq, Repr

/-- JavaScript truthiness of an optional string property: an absent property
and the empty string are both falsy. -/
def truthyStr : Option String → Option String
  | some s => if s = "" then none else some s
  | none => none

/-- Embeds the calleeName computation of handleCallExpression.  Starting from
`let calleeName = ''`, an identifier callee with a truthy `.value` wins, then a
truthy `.name`; for a member expression with an identifier property the source
assigns `property.value || property.name`, which can leave the JavaScript
variable `undefined` (modelled as `none`) when both are absent. -/
def calleeNameOf : CalleeNode → Option String
  | .ident i =>
      match truthyStr i.value with
      | some v => some v
      | none =>
        match truthyStr i.nm with
        | some n => some n
        | none => some ""
  | .memberIdentProp p =>
      match truthyStr p.value with
      | some v => some v
      | none => p.nm
  | .memberOtherProp => some ""
  | .otherCallee => some ""

/-- Embeds JavaScript String.prototype.slice with a start index, used as
`pattern.slice(2)` in the source. -/
def sliceFrom (s : String) (n : Nat) : String := String.mk (s.data.drop n)

/-- Embeds the per-pattern test of handleCallExpression: a pattern starting
with `*.` matches when the computed callee name equals the pattern without its
first two characters, otherwise the pattern must equal the callee name. -/
def patternMatchesCallee (pattern : String) (c : CalleeNode) : Bool :=
  if strStartsWith pattern "*." then calleeNameOf c == some (sliceFrom pattern 2)
  else calleeNameOf c == some pattern

/-- Embeds the loop over config.extract.functions in handleCallExpression. -/
def matchesAnyPattern (patterns : List String) (c : CalleeNode) : Bool :=
  patterns.any (fun p => patternMatchesCallee p c)

/-- Whether the callee is a member expression. -/
def isMemberCallee : CalleeNode → Bool
  | .memberIdentProp _ => true
  | .memberOtherProp => true
  | .ident _ => false
  | .otherCallee => false

/-- C3 (counterexample): the wildcard pattern `*.t` also matches a call whose
callee is the plain identifier `t`, which is not a member expression, so the
wildcard form does not match exactly the member-expression call sites. -/
theorem wildcard_matches_plain_ident :
    patternMatchesCallee "*.t" (CalleeNode.ident { value := some "t", nm := none }) = true ∧
    isMemberCallee (CalleeNode.ident { value := some "t", nm := none }) = false := by
  constructor
  · rfl
  · rfl

/-- C3 (amended): a configured pattern of the wildcard form `*.f` matches a
call site exactly when the computed callee name equals `f`, where the callee
name is the identifier itself for a plain call and the property name for a
member-expression call; a non-wildcard pattern `f` matches exactly when the
computed callee name equals `f`. -/
theorem patternMatchesCallee_spec (p : String) (c : CalleeNode) :
    (strStartsWith p "*." = true →
      (patternMatchesCallee p c = true ↔ calleeNameOf c = some (sliceFrom p 2))) ∧
    (strStartsWith p "*." = false →
      (patternMatchesCallee p c = true ↔ calleeNameOf c = some p)) := by
  constructor
  · intro h
    simp [patternMatchesCallee, h]
  · intro h
    simp [patternMatchesCallee, h]

/-- C3 (amended, witness): instantiation at the member-expression call `x.t`
with pattern `*.t` and at the plain call `t` with pattern `t`. -/
theorem patternMatchesCallee_spec_witness :
    (strStartsWith "*.t" "*." = true ∧
      (patternMatchesCallee "*.t" (CalleeNode.memberIdentProp { value := some "t", nm := none }) = true ↔
        calleeNameOf (CalleeNode.memberIdentProp { value := some "t", nm := none }) = some (sliceFrom "*.t" 2))) ∧
    (strStartsWith "t" "*." = false ∧
      (patternMatchesCallee "t" (CalleeNode.ident { value := some "t", nm := none }) = true ↔
        calleeNameOf (CalleeNode.ident { value := some "t", nm := none }) = some "t")) :=
  ⟨⟨by decide, (patternMatchesCallee_spec "*.t" (CalleeNode.memberIdentProp { value := some "t", nm := none })).1 (by decide)⟩,
   ⟨by decide, (patternMatchesCallee_spec "t" (CalleeNode.ident { value := some "t", nm := none })).2 (by decide)⟩⟩

/-! ## Interpolation-parameter linting (src/unnamed/part_000, lines 74-255) -/

/-- The slice of I18nextToolkitConfig read by the embedded functions.  Fields
`interpPre` and `interpSuf` embed config.extract.interpolationPrefix and
config.extract.interpolationSuffix; `checkInterpParams` embeds
config.lint.checkInterpolationParams; `functions` embeds
config.extract.functions; `extractFromComments` and `outputFormat` embed the
equally named config.extract fields. -/
structure Config where
  interpPre : Option String := none
  interpSuf : Option String := none
  checkInterpParams : Option Bool := none
  functions : Option (List String) := none
  extractFromComments : Option Bool := none
  outputFormat : Option String := none

/-- A character of the regex class `[\w.-]` used by extractInterpolationKeys
(ASCII word characters plus dot and dash). -/
def interpWordChar (c : Char) : Bool :=
  c.isAlpha || c.isDigit || c = '_' || c = '.' || c = '-'

/-- A JavaScript regex `\s` whitespace character (the ASCII part). -/
def jsSpace (c : Char) : Bool :=
  c = ' ' || c = '\t' || c = '\n' || c = '\r' || c = '\x0b' || c = '\x0c'

/-- One attempt to match the interpolation regex
`pre \s* ([\w.-]+) \s* suf` at the current position; on success returns the
captured key and the remainder after the match.  Faithful to the source regex
for delimiters (such as the defaults) that do not start with a `[\w.-]` or
whitespace character, where greedy matching needs no backtracking. -/
def matchInterpAt (pre suf l : List Char) : Option (List Char × List Char) :=
  match stripPre pre l with
  | none => none
  | some l1 =>
    let l2 := l1.dropWhile jsSpace
    let w := l2.takeWhile interpWordChar
    let l3 := l2.dropWhile interpWordChar
    if w.isEmpty then none
    else
      match stripPre suf (l3.dropWhile jsSpace) with
      | none => none
      | some l5 => some (w, l5)

/-- Repeated leftmost matching of the interpolation regex, as regex.exec with
the global flag performs it: on a match continue after the match, otherwise
advance one character.  The fuel argument bounds the recursion; every step
consumes at least one character, so fuel equal to the input length is enough. -/
def scanInterp (pre suf : List Char) : Nat → List Char → List (List Char)
  | 0, _ => []
  | _ + 1, [] => []
  | fuel + 1, c :: rest =>
    match matchInterpAt pre suf (c :: rest) with
    | some (w, l5) => w :: scanInterp pre suf fuel l5
    | none => scanInterp pre suf fuel rest

/-- Embeds extractInterpolationKeys: collects the keys of all interpolation
placeholders `pre key suf` in a translation string, with the configured
delimiters defaulting to double braces. -/
def extractInterpolationKeys (cfg : Config) (s : String) : List String :=
  let pre := (cfg.interpPre.getD "\x7b\x7b").data
  let suf := (cfg.interpSuf.getD "\x7d\x7d").data
  (scanInterp pre suf s.data.length s.data).map String.mk

/-- Embeds the i18nextOptionKeys set: known i18next t() option keys that are
not interpolation parameters. -/
def i18nextOptionKeys : List String :=
  ["defaultValue", "count", "context", "ns", "lng", "lngs",
   "fallbackLng", "returnDetails", "returnObjects", "joinArrays",
   "postProcess", "interpolation", "skipInterpolation", "replace",
   "ordinal", "keySeparator", "nsSeparator", "tDescription"]

/-- Embeds isI18nextOptionKey: membership in the option-key set, or a name
starting with `defaultValue_` (plural default values). -/
def isI18nextOptionKey (k : String) : Bool :=
  i18nextOptionKeys.contains k || strStartsWith k "defaultValue_"

/-- Embeds the LintIssue record fields used by the interpolation linter. -/
structure LintIssue where
  text : String
  line : Nat
  issueType : String
deriving DecidableEq, Repr

/-- Embeds JavaScript `k.split('.')[0]`: the characters before the first dot. -/
def takeUntilDot : List Char → List Char
  | [] => []
  | c :: cs => if c = '.' then [] else c :: takeUntilDot cs

/-- The root of a dotted interpolation key. -/
def rootOfKey (k : String) : String := String.mk (takeUntilDot k.data)

/-- The issue text for an interpolation key missing from the parameters. -/
def notProvidedText (k : String) : String :=
  "Interpolation parameter \"" ++ k ++ "\" was not provided"

/-- The issue text for a supplied parameter unused by the translation string. -/
def unusedParamText (p : String) : String :=
  "Parameter \"" ++ p ++ "\" is not used in translation string"

/-- Embeds the per-call-site body of the reporting loop of
lintInterpolationParams (lines 221-251): extract the placeholder keys of the
resolved translation string; when at least one exists, first report every key
whose value (or dotted root) is not among the supplied parameters, then report
every supplied parameter that is neither a known i18next option key nor used
directly or as the root of a dotted key. -/
def lintCallSiteIssues (cfg : Config) (translationStr : String)
    (paramKeys : List String) (line : Nat) : List LintIssue :=
  let keys := extractInterpolationKeys cfg translationStr
  if keys.length > 0 then
    (keys.filterMap fun k =>
      if !(paramKeys.contains k) && !(paramKeys.contains (rootOfKey k)) then
        some { text := notProvidedText k, line := line, issueType := "interpolation" }
      else none)
    ++
    (paramKeys.filterMap fun pk =>
      if isI18nextOptionKey pk then none
      else if keys.any (fun k => k == pk || rootOfKey k == pk) then none
      else some { text := unusedParamText pk, line := line, issueType := "interpolation" })
  else []

/-- A call site collected by the AST walk of lintInterpolationParams: the
resolved translation string, the raw source text of the first argument, and
the names of the supplied option-object properties. -/
structure CallSite where
  translationStr : String
  searchText : String
  paramKeys : List String
deriving DecidableEq, Repr

/-- Embeds JavaScript String.prototype.indexOf with a start position; `none`
models the return value -1. -/
def idxFromAux (needle : List Char) : List Char → Nat → Option Nat
  | [], i => if (stripPre needle ([] : List Char)).isSome then some i else none
  | c :: rest, i =>
    if (stripPre needle (c :: rest)).isSome then some i
    else idxFromAux needle rest (i + 1)

/-- JavaScript `hay.indexOf(needle, start)`. -/
def jsIndexOf (hay needle : String) (start : Nat) : Option Nat :=
  idxFromAux needle.data (hay.data.drop start) start

/-- Embeds the getLineNumber helper: one plus the number of newlines before
the position. -/
def getLineNumber (code : String) (pos : Nat) : Nat :=
  ((code.data.take pos).filter (fun c => c = '\n')).length + 1

/-- Embeds the sequential reporting loop of lintInterpolationParams: each call
site is located in the raw source starting from the end of the previous
match, sites whose search text is not found are skipped, and per-site issues
are produced by lintCallSiteIssues. -/
def lintLoop (cfg : Config) (code : String) : List CallSite → Nat → List LintIssue
  | [], _ => []
  | cs :: rest, lastIdx =>
    match jsIndexOf code cs.searchText lastIdx with
    | none => lintLoop cfg code rest lastIdx
    | some pos =>
      lintCallSiteIssues cfg cs.translationStr cs.paramKeys (getLineNumber code pos)
        ++ lintLoop cfg code rest (pos + cs.searchText.data.length)

/-- Embeds lintInterpolationParams over the collected call sites: when
config.lint.checkInterpolationParams is set to false the check is disabled
and no issues are produced; otherwise the sequential loop runs from search
position zero. -/
def lintInterpolationParams (cfg : Config) (code : String)
    (callSites : List CallSite) : List LintIssue :=
  if cfg.checkInterpParams == some false then []
  else lintLoop cfg code callSites 0

theorem notProvidedText_ne_unusedParamText (k p : String) :
    notProvidedText k ≠ unusedParamText p := by
  intro h
  have hd : (notProvidedText k).data = (unusedParamText p).data := congrArg String.data h
  rw [notProvidedText, unusedParamText, string_data_append, string_data_append,
    string_data_append, string_data_append] at hd
  have e1 : ("Interpolation parameter \"" : String).data
      = 'I' :: ("nterpolation parameter \"" : String).data := rfl
  have e2 : ("Parameter \"" : String).data = 'P' :: ("arameter \"" : String).data := rfl
  rw [e1, e2] at hd
  simp only [List.cons_append, List.cons.injEq] at hd
  exact absurd hd.1 (by decide)

theorem unusedParamText_inj {p q : String} (h : unusedParamText p = unusedParamText q) :
    p = q := by
  have hd : (unusedParamText p).data = (unusedParamText q).data := congrArg String.data h
  rw [unusedParamText, unusedParamText, string_data_append, string_data_append,
    string_data_append, string_data_append] at hd
  rw [List.append_assoc, List.append_assoc] at hd
  have h1 := List.append_cancel_left hd
  have h2 := List.append_cancel_right h1
  exact string_ext h2

/-- C9: for every call site checked by the interpolation linter, a supplied
parameter that is a known i18next option key (or a plural default value) is
never reported as an unused interpolation parameter, and when the resolved
translation string contains no interpolation placeholders no issue at all is
reported for that call site. -/
theorem lintCallSiteIssues_optionKeys (cfg : Config) (str : String)
    (params : List String) (line : Nat) :
    (∀ pk, isI18nextOptionKey pk = true →
      ∀ iss ∈ lintCallSiteIssues cfg str params line, iss.text ≠ unusedParamText pk) ∧
    (extractInterpolationKeys cfg str = [] →
      lintCallSiteIssues cfg str params line = []) := by
  constructor
  · intro pk hpk iss hiss
    simp only [lintCallSiteIssues] at hiss
    split at hiss
    · rw [List.mem_append] at hiss
      rcases hiss with hl | hr
      · rw [List.mem_filterMap] at hl
        obtain ⟨k, _, hk⟩ := hl
        split at hk
        · cases hk
          exact notProvidedText_ne_unusedParamText k pk
        · cases hk
      · rw [List.mem_filterMap] at hr
        obtain ⟨pk2, _, hpk2⟩ := hr
        split at hpk2
        · cases hpk2
        · split at hpk2
          · cases hpk2
          · cases hpk2
            intro heq
            have : pk2 = pk := unusedParamText_inj heq
            subst this
            simp_all
    · cases hiss
  · intro hkeys
    unfold lintCallSiteIssues
    rw [hkeys]
    simp

/-- C9 (witness): with the default configuration, the call site
`t('hi {{name}}', { count, name })` reports no unused-parameter issue for the
option key `count`, and the placeholder-free call site `t('hello', { x })`
reports no issue at all. -/
theorem lintCallSiteIssues_optionKeys_witness :
    ({ text := unusedParamText "count", line := 1, issueType := "interpolation" } : LintIssue)
        ∉ lintCallSiteIssues {} "hi \x7b\x7bname\x7d\x7d" ["count", "name"] 1 ∧
    lintCallSiteIssues {} "hello" ["x"] 1 = [] :=
  ⟨fun hmem =>
      (lintCallSiteIssues_optionKeys {} "hi \x7b\x7bname\x7d\x7d" ["count", "name"] 1).1
        "count" (by decide) _ hmem rfl,
   (lintCallSiteIssues_optionKeys {} "hello" ["x"] 1).2 (by decide)⟩

/-! ## processFile (src/src/extractor/core/extractor.ts, lines 146-264)

The file system, the SWC parser and the plugin hooks are external effects;
they are supplied through explicit environment records and the observable
behaviour is modelled as a trace of events. -/

/-- An observable event of a processFile / runExtractor run. -/
inductive Ev where
  | readFileEv (file : String)
  | warnEv (msg : String)
  | infoEv (msg : String)
  | visitEv (file : String)
  | commentScanEv (file : String)
  | mkdirEv (dir : String)
  | writeFileEv (path : String) (content : String)
deriving DecidableEq, Repr

/-- The outcome of a plugin onLoad hook on a given code string: it throws, it
returns undefined, or it returns a replacement code string. -/
inductive HookOutcome where
  | hookThrows
  | hookUndefined
  | hookResult (s : String)
deriving DecidableEq, Repr

/-- A plugin as processFile uses it: a name and an onLoad hook whose outcome
may depend on the code string it receives. -/
structure PluginM where
  name : String
  onLoad : String → HookOutcome

/-- Embeds the onLoad loop of processFile (lines 158-169): each hook runs in
its own try/catch; a throwing hook logs a warning and leaves the code as it
was, an undefined result leaves the code unchanged, and a string result
replaces the code for the following hooks. -/
def runOnLoadHooks : List PluginM → String → String × List Ev
  | [], code => (code, [])
  | p :: rest, code =>
    match p.onLoad code with
    | .hookThrows =>
      match runOnLoadHooks rest code with
      | (c, evs) => (c, Ev.warnEv ("Plugin " ++ p.name ++ " onLoad failed:") :: evs)
    | .hookUndefined => runOnLoadHooks rest code
    | .hookResult s => runOnLoadHooks rest s

/-- Parser options passed to the SWC parse call, as far as they vary inside
processFile (decorators, dynamicImport and comments are always enabled). -/
structure ParseOpts where
  useTs : Bool
  tsx : Bool
  jsx : Bool
deriving DecidableEq, Repr

/-- Model of node:path extname followed by toLowerCase: the extension of the
last path component, empty when the component has no dot after its first
character. -/
def extnameLower (file : String) : String :=
  let base := (file.data.reverse.takeWhile (fun c => c ≠ '/')).reverse
  let tl := base.reverse.takeWhile (fun c => c ≠ '.')
  if tl.length + 2 ≤ base.length then String.mk (('.' :: tl.reverse).map Char.toLower)
  else ""

/-- The environment of one processFile call: what readFile yields for the
file (`none` models a rejected read) and whether the external SWC parser
accepts a given code string under given options. -/
structure FileEnv where
  readResult : Option String
  parseOk : String → ParseOpts → Bool

/-- Result of the parse block of processFile (lines 177-219). -/
inductive ParseTry where
  | parsedFirst
  | parsedFallback
  | parseFailed
deriving DecidableEq, Repr

/-- Embeds the parse block of processFile: a first parse with options derived
from the file extension; on failure a TSX retry for `.ts` files or a JSX
retry for `.js` files (each logging an info line on success); any remaining
failure raises an ExtractorError, modelled as `parseFailed`. -/
def parseFile (env : FileEnv) (file code : String) : ParseTry × List Ev :=
  let ext := extnameLower file
  let isTsFile := ext == ".ts" || ext == ".tsx" || ext == ".mts" || ext == ".cts"
  let isTSX := ext == ".tsx"
  let isJSX := ext == ".jsx"
  if env.parseOk code { useTs := isTsFile, tsx := isTSX, jsx := isJSX } then
    (ParseTry.parsedFirst, [])
  else if ext == ".ts" && !isTSX then
    if env.parseOk code { useTs := true, tsx := true, jsx := false } then
      (ParseTry.parsedFallback, [Ev.infoEv ("Parsed " ++ file ++ " using TSX fallback")])
    else (ParseTry.parseFailed, [])
  else if ext == ".js" && !isJSX then
    if env.parseOk code { useTs := false, tsx := false, jsx := true } then
      (ParseTry.parsedFallback, [Ev.infoEv ("Parsed " ++ file ++ " using JSX fallback")])
    else (ParseTry.parseFailed, [])
  else (ParseTry.parseFailed, [])

/-- The warnings emitted by the outer catch of processFile (lines 245-259):
the skip line and the error-message line. -/
def skipEvents (file : String) : List Ev :=
  [Ev.warnEv ("Skipping file due to error: " ++ file),
   Ev.warnEv "Failed to process file"]

/-- The observable outcome of a processFile call: its event trace and the
fileErrors list after the call.  The source function catches every error, so
the model is total and never produces a rejected promise. -/
structure ProcResult where
  events : List Ev
  fileErrors : List String
deriving Repr

/-- Embeds processFile: read the file, run the onLoad hooks, parse with
retries, then visit the AST and, unless config.extract.extractFromComments is
set to false, run the comment scan; any error is caught, logged as warnings,
and the file path is appended to the fileErrors list.  The source takes the
fileErrors list as an optional parameter; it is modelled as present, as
runExtractor passes it. -/
def processFile (env : FileEnv) (plugins : List PluginM) (cfg : Config)
    (file : String) (fileErrors : List String) : ProcResult :=
  match env.readResult with
  | none => { events := skipEvents file, fileErrors := fileErrors ++ [file] }
  | some code0 =>
    match runOnLoadHooks plugins code0 with
    | (code, hookEvs) =>
      match parseFile env file code with
      | (ParseTry.parseFailed, pEvs) =>
        { events := Ev.readFileEv file :: (hookEvs ++ pEvs ++ skipEvents file),
          fileErrors := fileErrors ++ [file] }
      | (_, pEvs) =>
        { events := Ev.readFileEv file :: (hookEvs ++ pEvs ++ Ev.visitEv file ::
            (if cfg.extractFromComments == some false then [] else [Ev.commentScanEv file])),
          fileErrors := fileErrors }

theorem runOnLoadHooks_events_warn (ps : List PluginM) (c : String) :
    ∀ e ∈ (runOnLoadHooks ps c).2, ∃ m, e = Ev.warnEv m := by
  induction ps generalizing c with
  | nil => intro e he; cases he
  | cons p rest ih =>
    intro e he
    simp only [runOnLoadHooks] at he
    cases hp : p.onLoad c with
    | hookThrows =>
      rw [hp] at he
      rcases hr : runOnLoadHooks rest c with ⟨c2, evs⟩
      rw [hr] at he
      rw [List.mem_cons] at he
      rcases he with he | he
      · exact ⟨_, he⟩
      · have := ih c e
        rw [hr] at this
        exact this he
    | hookUndefined => rw [hp] at he; exact ih c e he
    | hookResult s => rw [hp] at he; exact ih s e he

theorem parseFile_events_info (env : FileEnv) (file code : String) :
    ∀ e ∈ (parseFile env file code).2, ∃ m, e = Ev.infoEv m := by
  intro e he
  simp only [parseFile] at he
  split at he
  · cases he
  · split at he
    · split at he
      · rw [List.mem_singleton] at he
        exact ⟨_, he⟩
      · cases he
    · split at he
      · split at he
        · rw [List.mem_singleton] at he
          exact ⟨_, he⟩
        · cases he
      · cases he

theorem parseFile_allFail (env : FileEnv) (file code : String)
    (h : ∀ c o, env.parseOk c o = false) :
    parseFile env file code = (ParseTry.parseFailed, []) := by
  simp [parseFile, h]

theorem runOnLoadHooks_append (ps qs : List PluginM) (c : String) :
    runOnLoadHooks (ps ++ qs) c =
      ((runOnLoadHooks qs (runOnLoadHooks ps c).1).1,
       (runOnLoadHooks ps c).2 ++ (runOnLoadHooks qs (runOnLoadHooks ps c).1).2) := by
  induction ps generalizing c with
  | nil => simp [runOnLoadHooks]
  | cons p rest ih =>
    simp only [List.cons_append, runOnLoadHooks]
    cases p.onLoad c with
    | hookThrows =>
      rcases hr : runOnLoadHooks (rest ++ qs) c with ⟨c2, evs⟩
      rw [ih] at hr
      cases hr
      rcases runOnLoadHooks rest c with ⟨c3, evs3⟩
      simp
    | hookUndefined => exact ih c
    | hookResult s => exact ih s

theorem runOnLoadHooks_cons_throws (p : PluginM) (qs : List PluginM) (c : String)
    (h : p.onLoad c = HookOutcome.hookThrows) :
    runOnLoadHooks (p :: qs) c =
      ((runOnLoadHooks qs c).1,
        Ev.warnEv ("Plugin " ++ p.name ++ " onLoad failed:") :: (runOnLoadHooks qs c).2) := by
  simp only [runOnLoadHooks, h]

theorem runOnLoadHooks_cons_undef (p : PluginM) (qs : List PluginM) (c : String)
    (h : p.onLoad c = HookOutcome.hookUndefined) :
    runOnLoadHooks (p :: qs) c = runOnLoadHooks qs c := by
  simp only [runOnLoadHooks, h]

/-- C4: when a plugin's onLoad hook throws on the code it receives, the
failure is logged as a warning and the remaining pipeline continues with the
code exactly as it was before that hook ran; a hook returning undefined
likewise leaves the code unchanged. -/
theorem onLoad_hook_failure_keeps_code (ps qs : List PluginM) (p : PluginM) (c0 : String) :
    (p.onLoad (runOnLoadHooks ps c0).1 = HookOutcome.hookThrows →
      (runOnLoadHooks (ps ++ p :: qs) c0).1
        = (runOnLoadHooks qs (runOnLoadHooks ps c0).1).1 ∧
      Ev.warnEv ("Plugin " ++ p.name ++ " onLoad failed:")
        ∈ (runOnLoadHooks (ps ++ p :: qs) c0).2) ∧
    (p.onLoad (runOnLoadHooks ps c0).1 = HookOutcome.hookUndefined →
      (runOnLoadHooks (ps ++ p :: qs) c0).1
        = (runOnLoadHooks qs (runOnLoadHooks ps c0).1).1) := by
  constructor
  · intro h
    have happ := runOnLoadHooks_append ps (p :: qs) c0
    rw [runOnLoadHooks_cons_throws p qs _ h] at happ
    constructor
    · rw [happ]
    · rw [happ]
      simp
  · intro h
    have happ := runOnLoadHooks_append ps (p :: qs) c0
    rw [runOnLoadHooks_cons_undef p qs _ h] at happ
    rw [happ]

/-- A plugin whose onLoad hook always throws, for the C4 witness. -/
def pluginThrowW : PluginM := { name := "bad", onLoad := fun _ => HookOutcome.hookThrows }

/-- A plugin whose onLoad hook always returns undefined, for the C4 witness. -/
def pluginUndefW : PluginM := { name := "noop", onLoad := fun _ => HookOutcome.hookUndefined }

/-- C4 (witness): concrete single-plugin pipelines where the hook throws or
returns undefined. -/
theorem onLoad_hook_failure_keeps_code_witness :
    pluginThrowW.onLoad (runOnLoadHooks [] "code").1 = HookOutcome.hookThrows ∧
    (runOnLoadHooks ([] ++ pluginThrowW :: []) "code").1
      = (runOnLoadHooks [] (runOnLoadHooks [] "code").1).1 ∧
    Ev.warnEv ("Plugin " ++ pluginThrowW.name ++ " onLoad failed:")
      ∈ (runOnLoadHooks ([] ++ pluginThrowW :: []) "code").2 ∧
    (runOnLoadHooks ([] ++ pluginUndefW :: []) "code").1
      = (runOnLoadHooks [] (runOnLoadHooks [] "code").1).1 :=
  ⟨rfl,
   ((onLoad_hook_failure_keeps_code [] [] pluginThrowW "code").1 rfl).1,
   ((onLoad_hook_failure_keeps_code [] [] pluginThrowW "code").1 rfl).2,
   (onLoad_hook_failure_keeps_code [] [] pluginUndefW "code").2 rfl⟩

/-- C1: when the SWC parser cannot produce a syntax tree for a file even
after the retry parses, processFile does not reject (the model is total and
this theorem exhibits its normal result): it logs a warning, skips the file
(no AST visit and no comment scan happen), and appends the file's path to the
fileErrors list. -/
theorem processFile_parse_failure (env : FileEnv) (plugins : List PluginM) (cfg : Config)
    (file : String) (fe : List String)
    (hparse : ∀ c o, env.parseOk c o = false) :
    (processFile env plugins cfg file fe).fileErrors = fe ++ [file] ∧
    Ev.warnEv ("Skipping file due to error: " ++ file)
      ∈ (processFile env plugins cfg file fe).events ∧
    ∀ e ∈ (processFile env plugins cfg file fe).events,
      e ≠ Ev.visitEv file ∧ e ≠ Ev.commentScanEv file := by
  rcases henv : env.readResult with _ | code0
  · refine ⟨by simp [processFile, henv], by simp [processFile, henv, skipEvents], ?_⟩
    intro e he
    simp [processFile, henv, skipEvents] at he
    rcases he with he | he <;> subst he <;> exact ⟨by simp, by simp⟩
  · rcases hrh : runOnLoadHooks plugins code0 with ⟨code, hookEvs⟩
    have hw := runOnLoadHooks_events_warn plugins code0
    rw [hrh] at hw
    have hpf := parseFile_allFail env file code hparse
    refine ⟨by simp [processFile, henv, hrh, hpf], ?_, ?_⟩
    · simp [processFile, henv, hrh, hpf, skipEvents]
    · intro e he
      simp [processFile, henv, hrh, hpf, skipEvents] at he
      rcases he with he | he | he | he
      · subst he; exact ⟨by simp, by simp⟩
      · obtain ⟨m, hm⟩ := hw e he
        subst hm; exact ⟨by simp, by simp⟩
      · subst he; exact ⟨by simp, by simp⟩
      · subst he; exact ⟨by simp, by simp⟩

/-- A file environment whose parser rejects everything, for the C1 witness. -/
def fileEnvFail : FileEnv := { readResult := some "const x = 1", parseOk := fun _ _ => false }

/-- A file environment whose parser accepts everything, for the C6 witness. -/
def fileEnvOk : FileEnv := { readResult := some "const x = 1", parseOk := fun _ _ => true }

/-- C1 (witness): a concrete file whose parse always fails is skipped with a
warning and recorded in fileErrors. -/
theorem processFile_parse_failure_witness :
    fileEnvFail.parseOk "const x = 1" { useTs := true, tsx := false, jsx := false } = false ∧
    (processFile fileEnvFail [] {} "a.ts" []).fileErrors = ["a.ts"] ∧
    Ev.warnEv ("Skipping file due to error: " ++ "a.ts")
      ∈ (processFile fileEnvFail [] {} "a.ts" []).events :=
  ⟨rfl,
   (processFile_parse_failure fileEnvFail [] {} "a.ts" [] (fun _ _ => rfl)).1,
   (processFile_parse_failure fileEnvFail [] {} "a.ts" [] (fun _ _ => rfl)).2.1⟩

/-- C6: for every processed file, the comment-scanning pass never appears in
the trace before the AST visit of the same file has happened (whenever the
comment scan occurs, the trace decomposes with the visit immediately before
it), it occurs at most once, and it occurs only when
config.extract.extractFromComments is not set to false. -/
theorem processFile_commentScan_after_visit (env : FileEnv) (plugins : List PluginM)
    (cfg : Config) (file : String) (fe : List String) :
    ((processFile env plugins cfg file fe).events.count (Ev.commentScanEv file) ≤ 1) ∧
    (Ev.commentScanEv file ∈ (processFile env plugins cfg file fe).events →
      cfg.extractFromComments ≠ some false) ∧
    (Ev.commentScanEv file ∈ (processFile env plugins cfg file fe).events →
      ∃ l1 l2, (processFile env plugins cfg file fe).events
        = l1 ++ Ev.visitEv file :: Ev.commentScanEv file :: l2) := by
  rcases henv : env.readResult with _ | code0
  · have hnot : Ev.commentScanEv file ∉ (processFile env plugins cfg file fe).events := by
      simp [processFile, henv, skipEvents]
    refine ⟨?_, fun h => absurd h hnot, fun h => absurd h hnot⟩
    rw [List.count_eq_zero.mpr hnot]
    omega
  · rcases hrh : runOnLoadHooks plugins code0 with ⟨code, hookEvs⟩
    have hw := runOnLoadHooks_events_warn plugins code0
    rw [hrh] at hw
    have h1 : Ev.commentScanEv file ∉ hookEvs := by
      intro hmem
      obtain ⟨m, hm⟩ := hw _ hmem
      cases hm
    rcases hpf : parseFile env file code with ⟨pt, pEvs⟩
    have hi := parseFile_events_info env file code
    rw [hpf] at hi
    have h2 : Ev.commentScanEv file ∉ pEvs := by
      intro hmem
      obtain ⟨m, hm⟩ := hi _ hmem
      cases hm
    cases pt with
    | parseFailed =>
      have hnot : Ev.commentScanEv file ∉ (processFile env plugins cfg file fe).events := by
        simp [processFile, henv, hrh, hpf, skipEvents]
        exact ⟨h1, h2⟩
      refine ⟨?_, fun h => absurd h hnot, fun h => absurd h hnot⟩
      rw [List.count_eq_zero.mpr hnot]
      omega
    | parsedFirst =>
      by_cases hc : cfg.extractFromComments == some false
      · have hnot : Ev.commentScanEv file ∉ (processFile env plugins cfg file fe).events := by
          simp [processFile, henv, hrh, hpf, hc]
          exact ⟨h1, h2⟩
        refine ⟨?_, fun h => absurd h hnot, fun h => absurd h hnot⟩
        rw [List.count_eq_zero.mpr hnot]
        omega
      · have hcb : (cfg.extractFromComments == some false) = false := by
          simpa using hc
        have hev : (processFile env plugins cfg file fe).events
            = Ev.readFileEv file :: (hookEvs ++ pEvs ++ Ev.visitEv file :: [Ev.commentScanEv file]) := by
          simp [processFile, henv, hrh, hpf, hcb]
        refine ⟨?_, fun _ => by simpa using hc, fun _ => ?_⟩
        · rw [hev]
          simp [List.count_cons, List.count_append, List.count_eq_zero.mpr h1,
            List.count_eq_zero.mpr h2]
        · exact ⟨Ev.readFileEv file :: (hookEvs ++ pEvs), [], by rw [hev]; simp⟩
    | parsedFallback =>
      by_cases hc : cfg.extractFromComments == some false
      · have hnot : Ev.commentScanEv file ∉ (processFile env plugins cfg file fe).events := by
          simp [processFile, henv, hrh, hpf, hc]
          exact ⟨h1, h2⟩
        refine ⟨?_, fun h => absurd h hnot, fun h => absurd h hnot⟩
        rw [List.count_eq_zero.mpr hnot]
        omega
      · have hcb : (cfg.extractFromComments == some false) = false := by
          simpa using hc
        have hev : (processFile env plugins cfg file fe).events
            = Ev.readFileEv file :: (hookEvs ++ pEvs ++ Ev.visitEv file :: [Ev.commentScanEv file]) := by
          simp [processFile, henv, hrh, hpf, hcb]
        refine ⟨?_, fun _ => by simpa using hc, fun _ => ?_⟩
        · rw [hev]
          simp [List.count_cons, List.count_append, List.count_eq_zero.mpr h1,
            List.count_eq_zero.mpr h2]
        · exact ⟨Ev.readFileEv file :: (hookEvs ++ pEvs), [], by rw [hev]; simp⟩

/-- C6 (witness): with the default configuration the comment scan of a
successfully parsed file happens, and it sits directly after the AST visit. -/
theorem processFile_commentScan_after_visit_witness :
    Ev.commentScanEv "a.ts" ∈ (processFile fileEnvOk [] {} "a.ts" []).events ∧
    ({} : Config).extractFromComments ≠ some false ∧
    ∃ l1 l2, (processFile fileEnvOk [] {} "a.ts" []).events
      = l1 ++ Ev.visitEv "a.ts" :: Ev.commentScanEv "a.ts" :: l2 := by
  have hmem : Ev.commentScanEv "a.ts" ∈ (processFile fileEnvOk [] {} "a.ts" []).events := by
    decide
  exact ⟨hmem,
    (processFile_commentScan_after_visit fileEnvOk [] {} "a.ts" []).2.1 hmem,
    (processFile_commentScan_after_visit fileEnvOk [] {} "a.ts" []).2.2 hmem⟩

/-! ## runExtractor (src/src/extractor/core/extractor.ts, lines 44-124)

findKeys, getTranslations, validateExtractorConfig and the file-utils helpers
live outside the given sources; their observable contributions (events,
recorded file errors, translation results, format inference, serialization)
are supplied through an environment record, while the control flow of
runExtractor itself is embedded from the source. -/

/-- One entry of the result list returned by getTranslations, as the write
loop of runExtractor reads it. -/
structure TranslationResult where
  path : String
  updated : Bool
  newTranslations : String
deriving DecidableEq, Repr

/-- The environment of one runExtractor call: whether configuration
validation passes (validateExtractorConfig throws otherwise), the events and
file errors produced inside findKeys, the results of getTranslations, the
behaviour of the external helpers inferFormatFromPath, serializeTranslationFile
and loadRawJson5Content, and whether a plugin afterSync hook throws. -/
structure ExtractorEnv where
  validationOk : Bool
  findKeysEvents : List Ev
  fileErrors : List String
  results : List TranslationResult
  inferFormat : String → String
  serializeTr : String → String → Option String → String
  rawJson5 : String → Option String
  afterSyncThrows : Bool

/-- The record returned by runExtractor. -/
structure RunOutcome where
  anyFileUpdated : Bool
  hasErrors : Bool
deriving DecidableEq, Repr

/-- Model of node:path dirname: the part of the path before its last slash. -/
def dirnameOf (p : String) : String :=
  match p.data.reverse.dropWhile (fun c => c ≠ '/') with
  | [] => "."
  | _ :: rest => if rest = [] then "/" else String.mk rest.reverse

/-- Embeds the effective-format choice of the write loop (line 85):
config.extract.outputFormat when set, otherwise the format inferred from the
output file's path. -/
def effectiveFormat (cfg : Config) (env : ExtractorEnv) (path : String) : String :=
  cfg.outputFormat.getD (env.inferFormat path)

/-- Embeds the write loop of runExtractor (lines 80-100): for every updated
result, unless the run is a dry run, load the raw json5 content when the
effective format is json5, serialize the new translations, create the output
directory and write the file, then log the update. -/
def writeEvents (cfg : Config) (env : ExtractorEnv) (isDryRun : Bool) :
    List TranslationResult → List Ev
  | [] => []
  | r :: rest =>
    (if r.updated then
      if isDryRun then []
      else
        [Ev.mkdirEv (dirnameOf r.path),
         Ev.writeFileEv r.path
           (env.serializeTr r.newTranslations (effectiveFormat cfg env r.path)
             (if effectiveFormat cfg env r.path == "json5" then env.rawJson5 r.path else none)),
         Ev.infoEv ("Updated: " ++ r.path)]
    else []) ++ writeEvents cfg env isDryRun rest

/-- Embeds runExtractor: validation runs before anything else and a failure
aborts with an empty trace; otherwise findKeys and the write loop run, the
afterSync hooks may rethrow, and on success the call returns anyFileUpdated
(whether some result was updated) and hasErrors (whether the fileErrors list
is non-empty, source: `hasErrors: fileErrors.length > 0`). -/
def runExtractor (env : ExtractorEnv) (cfg : Config) (isDryRun : Bool) :
    Except String RunOutcome × List Ev :=
  if env.validationOk = false then (.error "ExtractorError: invalid configuration", [])
  else
    let evs := env.findKeysEvents ++ writeEvents cfg env isDryRun env.results
    if env.afterSyncThrows then (.error "afterSync hook failed", evs)
    else
      (.ok { anyFileUpdated := env.results.any (fun r => r.updated),
             hasErrors := !env.fileErrors.isEmpty }, evs)

theorem writeEvents_env_congr (cfg : Config) (e1 e2 : ExtractorEnv) (d : Bool)
    (rs : List TranslationResult)
    (hi : e1.inferFormat = e2.inferFormat) (hs : e1.serializeTr = e2.serializeTr)
    (hr : e1.rawJson5 = e2.rawJson5) :
    writeEvents cfg e1 d rs = writeEvents cfg e2 d rs := by
  induction rs with
  | nil => rfl
  | cons r rest ih => simp [writeEvents, effectiveFormat, hi, hs, hr, ih]

/-- C5: when configuration validation fails, runExtractor aborts with an
error before any source file is read, any key is collected, or any
translation file is written: the trace of the failed run is empty. -/
theorem runExtractor_config_error (env : ExtractorEnv) (cfg : Config) (d : Bool)
    (h : env.validationOk = false) :
    (runExtractor env cfg d).1 = .error "ExtractorError: invalid configuration" ∧
    (runExtractor env cfg d).2 = [] := by
  simp [runExtractor, h]

/-- C2: the files recorded in fileErrors never change which translation files
are written from the successfully processed files (the trace is invariant
under replacing the fileErrors list), and a completed run returns
anyFileUpdated reflecting the update outcome together with hasErrors true
exactly when fileErrors is non-empty. -/
theorem runExtractor_reports_partial_failures (env : ExtractorEnv) (cfg : Config)
    (d : Bool) (fe2 : List String)
    (hv : env.validationOk = true) (ha : env.afterSyncThrows = false) :
    (runExtractor { env with fileErrors := fe2 } cfg d).2 = (runExtractor env cfg d).2 ∧
    (runExtractor env cfg d).1
      = .ok { anyFileUpdated := env.results.any (fun r => r.updated),
              hasErrors := !env.fileErrors.isEmpty } ∧
    ((!env.fileErrors.isEmpty) = true ↔ env.fileErrors ≠ []) := by
  obtain ⟨v, fke, fe, rs, inf, ser, raw, ast⟩ := env
  simp only at hv ha
  subst hv
  subst ha
  refine ⟨?_, ?_, ?_⟩
  · simp only [runExtractor]
    simp only [Bool.true_eq_false, if_false, if_neg, ite_false]
    exact congrArg (fun l => fke ++ l)
      (writeEvents_env_congr cfg _ _ d rs rfl rfl rfl)
  · simp [runExtractor]
  · simp

/-- C8: a dry run writes no translation file and makes no output directory
(the write loop contributes no events and the trace is exactly the findKeys
trace), while the returned anyFileUpdated still reflects whether any result
differed. -/
theorem runExtractor_dry_run_no_writes (env : ExtractorEnv) (cfg : Config)
    (hv : env.validationOk = true) (ha : env.afterSyncThrows = false) :
    writeEvents cfg env true env.results = [] ∧
    (runExtractor env cfg true).2 = env.findKeysEvents ∧
    (runExtractor env cfg true).1
      = .ok { anyFileUpdated := env.results.any (fun r => r.updated),
              hasErrors := !env.fileErrors.isEmpty } := by
  have hw : ∀ rs : List TranslationResult, writeEvents cfg env true rs = [] := by
    intro rs
    induction rs with
    | nil => rfl
    | cons r rest ih => simp [writeEvents, ih]
  refine ⟨hw env.results, ?_, ?_⟩
  · simp [runExtractor, hv, ha, hw]
  · simp [runExtractor, hv, ha]

/-- C7: every file written by the write loop is written for an updated result
and its content is serialized with the effective format, which equals
config.extract.outputFormat whenever that is set and the per-path inferred
format otherwise. -/
theorem writeEvents_format_precedence (cfg : Config) (env : ExtractorEnv) (d : Bool)
    (rs : List TranslationResult) (p c : String)
    (h : Ev.writeFileEv p c ∈ writeEvents cfg env d rs) :
    ∃ r ∈ rs, r.updated = true ∧ p = r.path ∧
      c = env.serializeTr r.newTranslations (effectiveFormat cfg env r.path)
            (if effectiveFormat cfg env r.path == "json5" then env.rawJson5 r.path else none) ∧
      (∀ f, cfg.outputFormat = some f → effectiveFormat cfg env r.path = f) ∧
      (cfg.outputFormat = none → effectiveFormat cfg env r.path = env.inferFormat r.path) := by
  induction rs with
  | nil => cases h
  | cons r rest ih =>
    simp only [writeEvents, List.mem_append] at h
    rcases h with h | h
    · split at h
      · split at h
        · cases h
        · simp only [List.mem_cons] at h
          rcases h with h | h | h | h
          · cases h
          · cases h
            refine ⟨r, by simp, by assumption, rfl, rfl, ?_, ?_⟩
            · intro f hf
              simp [effectiveFormat, hf]
            · intro hf
              simp [effectiveFormat, hf]
          · cases h
          · cases h
      · cases h
    · obtain ⟨r2, hr2, hrest⟩ := ih h
      exact ⟨r2, List.mem_cons_of_mem _ hr2, hrest⟩

/-- A concrete extractor environment for the witnesses. -/
def extractorEnvW : ExtractorEnv :=
  { validationOk := true,
    findKeysEvents := [Ev.readFileEv "a.ts"],
    fileErrors := ["bad.ts"],
    results := [{ path := "locales/en.json", updated := true, newTranslations := "T" }],
    inferFormat := fun _ => "json",
    serializeTr := fun t f _ => t ++ ":" ++ f,
    rawJson5 := fun _ => none,
    afterSyncThrows := false }

/-- The witness environment with validation failing. -/
def extractorEnvBad : ExtractorEnv := { extractorEnvW with validationOk := false }

/-- C5 (witness): the concrete invalid-configuration run errors with an empty
trace. -/
theorem runExtractor_config_error_witness :
    extractorEnvBad.validationOk = false ∧
    (runExtractor extractorEnvBad {} false).1 = .error "ExtractorError: invalid configuration" ∧
    (runExtractor extractorEnvBad {} false).2 = [] :=
  ⟨rfl,
   (runExtractor_config_error extractorEnvBad {} false rfl).1,
   (runExtractor_config_error extractorEnvBad {} false rfl).2⟩

/-- C2 (witness): on the concrete environment, clearing fileErrors leaves the
trace unchanged and the run reports an update together with hasErrors. -/
theorem runExtractor_reports_partial_failures_witness :
    extractorEnvW.validationOk = true ∧
    (runExtractor { extractorEnvW with fileErrors := [] } {} false).2
      = (runExtractor extractorEnvW {} false).2 ∧
    (runExtractor extractorEnvW {} false).1
      = .ok { anyFileUpdated := true, hasErrors := true } :=
  ⟨rfl,
   (runExtractor_reports_partial_failures extractorEnvW {} false [] rfl rfl).1,
   (runExtractor_reports_partial_failures extractorEnvW {} false [] rfl rfl).2.1⟩

/-- C8 (witness): the concrete dry run keeps the findKeys trace only and
still reports the update. -/
theorem runExtractor_dry_run_no_writes_witness :
    extractorEnvW.validationOk = true ∧
    writeEvents {} extractorEnvW true extractorEnvW.results = [] ∧
    (runExtractor extractorEnvW {} true).2 = extractorEnvW.findKeysEvents ∧
    (runExtractor extractorEnvW {} true).1
      = .ok { anyFileUpdated := true, hasErrors := true } :=
  ⟨rfl,
   (runExtractor_dry_run_no_writes extractorEnvW {} rfl rfl).1,
   (runExtractor_dry_run_no_writes extractorEnvW {} rfl rfl).2.1,
   (runExtractor_dry_run_no_writes extractorEnvW {} rfl rfl).2.2⟩

/-- C7 (witness): on the concrete environment with no explicit outputFormat,
the written file is serialized with the inferred format json. -/
theorem writeEvents_format_precedence_witness :
    Ev.writeFileEv "locales/en.json" "T:json"
      ∈ writeEvents {} extractorEnvW false extractorEnvW.results ∧
    effectiveFormat {} extractorEnvW "locales/en.json" = "json" := by
  have hmem : Ev.writeFileEv "locales/en.json" "T:json"
      ∈ writeEvents {} extractorEnvW false extractorEnvW.results := by decide
  obtain ⟨r, hr, -, hpath, -, -, hfn⟩ :=
    writeEvents_format_precedence {} extractorEnvW false extractorEnvW.results _ _ hmem
  have hr2 : r = { path := "locales/en.json", updated := true, newTranslations := "T" } := by
    simpa [extractorEnvW] using hr
  subst hr2
  exact ⟨hmem, hfn rfl⟩

end I18nCli
